import Mathlib

set_option linter.unusedSectionVars false

/-!
Verification development for the rayopt single-surface optical model and its
catalog library.

The repository ships `rayopt/library.py` together with the test module
`rayopt/tests/test_elements.py`.  The elements module itself (the `Spheroid`
surface with its frame transforms, paraxial and real propagation, and pupil
aiming) is not part of the sources, so those definitions are modelled from the
specification, as stated in their doc comments.  The library definitions are
translated from `rayopt/library.py`.
-/

namespace RayOpt

/-- Concrete 3-vectors with named components, used for ray positions and
directions. -/
@[ext]
structure V3 (α : Type) where
  x : α
  y : α
  z : α
  deriving DecidableEq, Repr

section Geometry

variable {α : Type} [Field α] [DecidableEq α]

/-- Componentwise vector addition. -/
def V3.add (a b : V3 α) : V3 α := ⟨a.x + b.x, a.y + b.y, a.z + b.z⟩

/-- Componentwise vector subtraction. -/
def V3.sub (a b : V3 α) : V3 α := ⟨a.x - b.x, a.y - b.y, a.z - b.z⟩

/-- Scalar multiple of a vector. -/
def V3.smul (t : α) (a : V3 α) : V3 α := ⟨t * a.x, t * a.y, t * a.z⟩

/-- Euclidean inner product of two 3-vectors. -/
def V3.dot (a b : V3 α) : α := a.x * b.x + a.y * b.y + a.z * b.z

/-- Predicate stating that a vector has unit Euclidean norm (squared norm one). -/
def V3.unit (v : V3 α) : Prop := v.x ^ 2 + v.y ^ 2 + v.z ^ 2 = 1

instance (v : V3 ℚ) : Decidable v.unit :=
  inferInstanceAs (Decidable (v.x ^ 2 + v.y ^ 2 + v.z ^ 2 = 1))

/-- Modelled from the spec: a tilt rotation angle of section 4.1 is represented
by the pair of its sine and cosine, so the elemental rotations become exact
field operations. -/
structure SinCos (α : Type) where
  s : α
  c : α
  deriving DecidableEq, Repr

/-- Predicate stating that a sine/cosine pair lies on the unit circle, which
holds of the sine and cosine of every angle. -/
def SinCos.onCircle (t : SinCos α) : Prop := t.s ^ 2 + t.c ^ 2 = 1

instance (t : SinCos ℚ) : Decidable t.onCircle :=
  inferInstanceAs (Decidable (t.s ^ 2 + t.c ^ 2 = 1))

/-- Modelled from the spec (section 4.1): elemental rotation about the first
axis, in the direction taking the normal frame to the axis frame.  The
convention is fixed by the test expectation that tilt angles `(a, 0, 0)` send
`(0, 0, 3)` to `(0, 3 sin a, 3 cos a)` under `from_normal`. -/
def rotXF (t : SinCos α) (v : V3 α) : V3 α :=
  ⟨v.x, t.c * v.y + t.s * v.z, t.c * v.z - t.s * v.y⟩

/-- Inverse (transpose) of the elemental rotation about the first axis. -/
def rotXI (t : SinCos α) (v : V3 α) : V3 α :=
  ⟨v.x, t.c * v.y - t.s * v.z, t.c * v.z + t.s * v.y⟩

/-- Modelled from the spec (section 4.1): elemental rotation about the second
axis. -/
def rotYF (t : SinCos α) (v : V3 α) : V3 α :=
  ⟨t.c * v.x + t.s * v.z, v.y, t.c * v.z - t.s * v.x⟩

/-- Inverse (transpose) of the elemental rotation about the second axis. -/
def rotYI (t : SinCos α) (v : V3 α) : V3 α :=
  ⟨t.c * v.x - t.s * v.z, v.y, t.c * v.z + t.s * v.x⟩

/-- Modelled from the spec (section 4.1): elemental rotation about the third
axis. -/
def rotZF (t : SinCos α) (v : V3 α) : V3 α :=
  ⟨t.c * v.x - t.s * v.y, t.s * v.x + t.c * v.y, v.z⟩

/-- Inverse (transpose) of the elemental rotation about the third axis. -/
def rotZI (t : SinCos α) (v : V3 α) : V3 α :=
  ⟨t.c * v.x + t.s * v.y, t.c * v.y - t.s * v.x, v.z⟩

/-- Modelled from the spec (section 4.1): the axis-realignment rotation, the
rotation mapping the default axis `(0, 0, 1)` onto the surface direction `d`.
It is realised by the Rodrigues rotation about the axis `(0, 0, 1) x d`; the
degenerate case `d = (0, 0, 1 + d.z = 0)` (direction opposite to the default
axis) uses the half-turn about the first axis instead. -/
def alignF (d : V3 α) (v : V3 α) : V3 α :=
  if 1 + d.z = 0 then ⟨v.x, -v.y, -v.z⟩
  else
    ⟨v.x + d.x * v.z - d.x * (d.x * v.x + d.y * v.y) / (1 + d.z),
     v.y + d.y * v.z - d.y * (d.x * v.x + d.y * v.y) / (1 + d.z),
     v.z - (d.x * v.x + d.y * v.y) - (d.x ^ 2 + d.y ^ 2) * v.z / (1 + d.z)⟩

/-- Inverse (transpose) of the axis-realignment rotation `alignF`. -/
def alignI (d : V3 α) (v : V3 α) : V3 α :=
  if 1 + d.z = 0 then ⟨v.x, -v.y, -v.z⟩
  else
    ⟨v.x - d.x * v.z - d.x * (d.x * v.x + d.y * v.y) / (1 + d.z),
     v.y - d.y * v.z - d.y * (d.x * v.x + d.y * v.y) / (1 + d.z),
     v.z + (d.x * v.x + d.y * v.y) - (d.x ^ 2 + d.y ^ 2) * v.z / (1 + d.z)⟩

/-- Modelled from the spec (sections 2 and 4.2, design note in section 9):
the refractive-index provider is a tagged variant, either an ordinary
dielectric with design-wavelength index `nd` and Abbe number `vd`, or the
mirror marker that signals reflection to the propagation operations. -/
inductive Material (α : Type) where
  | dielectric (nd vd : α)
  | mirror
  deriving DecidableEq, Repr

/-- Modelled from the spec (section 3): the single-surface model.  Geometry
(`curvature`), pose relative to the predecessor (`distance`, unit `direction`,
optional tilt `angles` given by sine/cosine pairs), mutually exclusive aperture
specifications (`radius` / `angular_radius`) and the material of the medium
after the surface. -/
structure Spheroid (α : Type) [Field α] where
  curvature : α := 0
  distance : α := 0
  direction : V3 α := ⟨0, 0, 1⟩
  angles : Option (SinCos α × SinCos α × SinCos α) := none
  material : Option (Material α) := none
  radius : Option α := none
  angular_radius : Option α := none
  deriving DecidableEq, Repr

/-- Unit-circle condition for an optional triple of tilt angles: trivial when
no tilt is configured, and the condition on each angle otherwise. -/
def anglesOK : Option (SinCos α × SinCos α × SinCos α) → Prop
  | none => True
  | some (a, b, c) => a.onCircle ∧ b.onCircle ∧ c.onCircle

instance : (o : Option (SinCos ℚ × SinCos ℚ × SinCos ℚ)) → Decidable (anglesOK o)
  | none => Decidable.isTrue trivial
  | some (_, _, _) =>
      inferInstanceAs (Decidable (_ ∧ _ ∧ _))

/-- Modelled from the spec (section 3): the derived offset of a surface is its
distance times its direction; it is never stored independently. -/
def Spheroid.offset (s : Spheroid α) : V3 α := V3.smul s.distance s.direction

/-- Derived flag: a surface is finite exactly when a physical clear-aperture
radius (not an angular one) is set (spec, section 3). -/
def Spheroid.finite (s : Spheroid α) : Bool := s.radius.isSome

/-- Pose update: set the distance of a surface, leaving all else unchanged. -/
def Spheroid.setDistance (s : Spheroid α) (d : α) : Spheroid α :=
  { s with distance := d }

/-- Pose update: set the direction of a surface, leaving all else unchanged. -/
def Spheroid.setDirection (s : Spheroid α) (v : V3 α) : Spheroid α :=
  { s with direction := v }

/-- Modelled from the spec (section 4.1): the full rotation taking the normal
frame to the axis frame: the three elemental tilt rotations composed on top of
the axis realignment from `direction`; when `angles` is absent only the
realignment remains (the identity at the default direction). -/
def Spheroid.rotF (s : Spheroid α) (v : V3 α) : V3 α :=
  alignF s.direction
    (match s.angles with
     | none => v
     | some (a, b, c) => rotXF a (rotYF b (rotZF c v)))

/-- Inverse of `Spheroid.rotF`: the rotation taking the axis frame back to the
normal frame. -/
def Spheroid.rotI (s : Spheroid α) (v : V3 α) : V3 α :=
  match s.angles with
  | none => alignI s.direction v
  | some (a, b, c) => rotZI c (rotYI b (rotXI a (alignI s.direction v)))

/-- Modelled from the spec (section 4.1): rotation-only transform from the
tilted normal frame to the axis frame. -/
def Spheroid.from_normal (s : Spheroid α) (v : V3 α) : V3 α := s.rotF v

/-- Modelled from the spec (section 4.1): rotation-only transform from the
axis frame to the tilted normal frame. -/
def Spheroid.to_normal (s : Spheroid α) (v : V3 α) : V3 α := s.rotI v

/-- Modelled from the spec (section 4.1): rotate and translate a point out of
the surface frame into the axis frame, using the derived offset. -/
def Spheroid.from_axis (s : Spheroid α) (v : V3 α) : V3 α :=
  V3.add (s.rotF v) s.offset

/-- Modelled from the spec (section 4.1): translate and de-rotate a point from
the axis frame into the surface frame, using the derived offset. -/
def Spheroid.to_axis (s : Spheroid α) (v : V3 α) : V3 α :=
  s.rotI (V3.sub v s.offset)

/-- Exit refractive index of a surface: the dielectric index for an ordinary
material, `-n0` for a mirror, and the incoming index when no material is set
(spec, sections 4.2 to 4.4). -/
def Spheroid.n1of (s : Spheroid α) (n0 : α) : α :=
  match s.material with
  | none => n0
  | some (Material.dielectric nd _) => nd
  | some Material.mirror => -n0

/-- Mirror test on the material of a surface. -/
def Spheroid.isMirror (s : Spheroid α) : Bool :=
  match s.material with
  | some Material.mirror => true
  | _ => false

/-- Modelled from the spec (section 4.3): paraxial propagation through one
surface.  The ray state is a pair of 2-D transverse positions and angles,
carried in slope form; the refraction equation is applied in reduced
coordinates (`ubar = n * u`), as a surface of power `phi = curvature * (n1 - n0)`
gives `ubar1 = ubar0 - y * phi`, followed by the transfer
`y1 = y + ubar1 * (distance / n1)`; the two transverse dimensions are
decoupled.  For a mirror, `n1 = -n0` and the position is folded back along the
incoming axis. -/
def Spheroid.propagate_paraxial (s : Spheroid α) (yu : (α × α) × (α × α))
    (n0 : α) (_l : α) : ((α × α) × (α × α)) × α :=
  let n1 := s.n1of n0
  let phi := s.curvature * (n1 - n0)
  let step := fun (y u : α) =>
    let u1 := (n0 * u - y * phi) / n1
    let y0 := if s.isMirror then -y else y
    (y0 + u1 * s.distance, u1)
  let sx := step yu.1.1 yu.2.1
  let sy := step yu.1.2 yu.2.2
  (((sx.1, sy.1), (sx.2, sy.2)), n1)

end Geometry

section RotLemmas

variable {α : Type} [Field α] [DecidableEq α]

theorem rotXF_rotXI (t : SinCos α) (ht : t.onCircle) (v : V3 α) :
    rotXF t (rotXI t v) = v := by
  have h : t.s ^ 2 + t.c ^ 2 = 1 := ht
  refine V3.ext ?_ ?_ ?_ <;> simp only [rotXF, rotXI]
  · linear_combination v.y * h
  · linear_combination v.z * h

theorem rotXI_rotXF (t : SinCos α) (ht : t.onCircle) (v : V3 α) :
    rotXI t (rotXF t v) = v := by
  have h : t.s ^ 2 + t.c ^ 2 = 1 := ht
  refine V3.ext ?_ ?_ ?_ <;> simp only [rotXF, rotXI]
  · linear_combination v.y * h
  · linear_combination v.z * h

theorem rotYF_rotYI (t : SinCos α) (ht : t.onCircle) (v : V3 α) :
    rotYF t (rotYI t v) = v := by
  have h : t.s ^ 2 + t.c ^ 2 = 1 := ht
  refine V3.ext ?_ ?_ ?_ <;> simp only [rotYF, rotYI]
  · linear_combination v.x * h
  · linear_combination v.z * h

theorem rotYI_rotYF (t : SinCos α) (ht : t.onCircle) (v : V3 α) :
    rotYI t (rotYF t v) = v := by
  have h : t.s ^ 2 + t.c ^ 2 = 1 := ht
  refine V3.ext ?_ ?_ ?_ <;> simp only [rotYF, rotYI]
  · linear_combination v.x * h
  · linear_combination v.z * h

theorem rotZF_rotZI (t : SinCos α) (ht : t.onCircle) (v : V3 α) :
    rotZF t (rotZI t v) = v := by
  have h : t.s ^ 2 + t.c ^ 2 = 1 := ht
  refine V3.ext ?_ ?_ ?_ <;> simp only [rotZF, rotZI]
  · linear_combination v.x * h
  · linear_combination v.y * h

theorem rotZI_rotZF (t : SinCos α) (ht : t.onCircle) (v : V3 α) :
    rotZI t (rotZF t v) = v := by
  have h : t.s ^ 2 + t.c ^ 2 = 1 := ht
  refine V3.ext ?_ ?_ ?_ <;> simp only [rotZF, rotZI]
  · linear_combination v.x * h
  · linear_combination v.y * h

theorem alignF_alignI (d : V3 α) (hd : d.unit) (v : V3 α) :
    alignF d (alignI d v) = v := by
  have hd' : d.x ^ 2 + d.y ^ 2 + d.z ^ 2 = 1 := hd
  by_cases h1 : 1 + d.z = 0
  · simp only [alignF, alignI, if_pos h1]
    refine V3.ext ?_ ?_ ?_ <;> simp
  · simp only [alignF, alignI, if_neg h1]
    refine V3.ext ?_ ?_ ?_ <;> dsimp only <;> field_simp
    · linear_combination (d.x * (1 + d.z) * (d.x * v.x + d.y * v.y)) * hd'
    · linear_combination (d.y * (1 + d.z) * (d.x * v.x + d.y * v.y)) * hd'
    · linear_combination ((d.x ^ 2 + d.y ^ 2) * (1 + d.z) * v.z) * hd'

theorem alignI_alignF (d : V3 α) (hd : d.unit) (v : V3 α) :
    alignI d (alignF d v) = v := by
  have hd' : d.x ^ 2 + d.y ^ 2 + d.z ^ 2 = 1 := hd
  by_cases h1 : 1 + d.z = 0
  · simp only [alignF, alignI, if_pos h1]
    refine V3.ext ?_ ?_ ?_ <;> simp
  · simp only [alignF, alignI, if_neg h1]
    refine V3.ext ?_ ?_ ?_ <;> dsimp only <;> field_simp
    · linear_combination (d.x * (1 + d.z) * (d.x * v.x + d.y * v.y)) * hd'
    · linear_combination (d.y * (1 + d.z) * (d.x * v.x + d.y * v.y)) * hd'
    · linear_combination ((d.x ^ 2 + d.y ^ 2) * (1 + d.z) * v.z) * hd'

theorem alignF_adjoint (d : V3 α) (v w : V3 α) :
    V3.dot (alignF d v) w = V3.dot v (alignI d w) := by
  by_cases h1 : 1 + d.z = 0
  · simp only [alignF, alignI, if_pos h1, V3.dot]
    ring
  · simp only [alignF, alignI, if_neg h1, V3.dot]
    ring

theorem alignI_adjoint (d : V3 α) (v w : V3 α) :
    V3.dot (alignI d v) w = V3.dot v (alignF d w) := by
  by_cases h1 : 1 + d.z = 0
  · simp only [alignF, alignI, if_pos h1, V3.dot]
    ring
  · simp only [alignF, alignI, if_neg h1, V3.dot]
    ring

theorem dot_alignF (d : V3 α) (hd : d.unit) (v w : V3 α) :
    V3.dot (alignF d v) (alignF d w) = V3.dot v w := by
  rw [alignF_adjoint, alignI_alignF d hd]

theorem dot_alignI (d : V3 α) (hd : d.unit) (v w : V3 α) :
    V3.dot (alignI d v) (alignI d w) = V3.dot v w := by
  rw [alignI_adjoint, alignF_alignI d hd]

theorem rotXF_adjoint (t : SinCos α) (v w : V3 α) :
    V3.dot (rotXF t v) w = V3.dot v (rotXI t w) := by
  simp only [rotXF, rotXI, V3.dot]
  ring

theorem rotXI_adjoint (t : SinCos α) (v w : V3 α) :
    V3.dot (rotXI t v) w = V3.dot v (rotXF t w) := by
  simp only [rotXF, rotXI, V3.dot]
  ring

theorem rotYF_adjoint (t : SinCos α) (v w : V3 α) :
    V3.dot (rotYF t v) w = V3.dot v (rotYI t w) := by
  simp only [rotYF, rotYI, V3.dot]
  ring

theorem rotYI_adjoint (t : SinCos α) (v w : V3 α) :
    V3.dot (rotYI t v) w = V3.dot v (rotYF t w) := by
  simp only [rotYF, rotYI, V3.dot]
  ring

theorem rotZF_adjoint (t : SinCos α) (v w : V3 α) :
    V3.dot (rotZF t v) w = V3.dot v (rotZI t w) := by
  simp only [rotZF, rotZI, V3.dot]
  ring

theorem rotZI_adjoint (t : SinCos α) (v w : V3 α) :
    V3.dot (rotZI t v) w = V3.dot v (rotZF t w) := by
  simp only [rotZF, rotZI, V3.dot]
  ring

theorem dot_rotXF (t : SinCos α) (ht : t.onCircle) (v w : V3 α) :
    V3.dot (rotXF t v) (rotXF t w) = V3.dot v w := by
  rw [rotXF_adjoint, rotXI_rotXF t ht]

theorem dot_rotXI (t : SinCos α) (ht : t.onCircle) (v w : V3 α) :
    V3.dot (rotXI t v) (rotXI t w) = V3.dot v w := by
  rw [rotXI_adjoint, rotXF_rotXI t ht]

theorem dot_rotYF (t : SinCos α) (ht : t.onCircle) (v w : V3 α) :
    V3.dot (rotYF t v) (rotYF t w) = V3.dot v w := by
  rw [rotYF_adjoint, rotYI_rotYF t ht]

theorem dot_rotYI (t : SinCos α) (ht : t.onCircle) (v w : V3 α) :
    V3.dot (rotYI t v) (rotYI t w) = V3.dot v w := by
  rw [rotYI_adjoint, rotYF_rotYI t ht]

theorem dot_rotZF (t : SinCos α) (ht : t.onCircle) (v w : V3 α) :
    V3.dot (rotZF t v) (rotZF t w) = V3.dot v w := by
  rw [rotZF_adjoint, rotZI_rotZF t ht]

theorem dot_rotZI (t : SinCos α) (ht : t.onCircle) (v w : V3 α) :
    V3.dot (rotZI t v) (rotZI t w) = V3.dot v w := by
  rw [rotZI_adjoint, rotZF_rotZI t ht]

theorem rotF_rotI (s : Spheroid α) (hd : s.direction.unit)
    (ha : anglesOK s.angles) (v : V3 α) : s.rotF (s.rotI v) = v := by
  rcases hs : s.angles with _ | ⟨a, b, c⟩ <;>
    simp only [Spheroid.rotF, Spheroid.rotI, hs]
  · exact alignF_alignI _ hd _
  · rw [hs] at ha
    simp only [anglesOK] at ha
    obtain ⟨h1, h2, h3⟩ := ha
    rw [rotZF_rotZI c h3, rotYF_rotYI b h2, rotXF_rotXI a h1,
      alignF_alignI _ hd]

theorem dot_rotI (s : Spheroid α) (hd : s.direction.unit)
    (ha : anglesOK s.angles) (v w : V3 α) :
    V3.dot (s.rotI v) (s.rotI w) = V3.dot v w := by
  rcases hs : s.angles with _ | ⟨a, b, c⟩ <;>
    simp only [Spheroid.rotI, hs]
  · exact dot_alignI _ hd _ _
  · rw [hs] at ha
    simp only [anglesOK] at ha
    obtain ⟨h1, h2, h3⟩ := ha
    rw [dot_rotZI c h3, dot_rotYI b h2, dot_rotXI a h1, dot_alignI _ hd]

theorem dot_rotF (s : Spheroid α) (hd : s.direction.unit)
    (ha : anglesOK s.angles) (v w : V3 α) :
    V3.dot (s.rotF v) (s.rotF w) = V3.dot v w := by
  rcases hs : s.angles with _ | ⟨a, b, c⟩ <;>
    simp only [Spheroid.rotF, hs]
  · exact dot_alignF _ hd _ _
  · rw [hs] at ha
    simp only [anglesOK] at ha
    obtain ⟨h1, h2, h3⟩ := ha
    rw [dot_alignF _ hd, dot_rotXF a h1, dot_rotYF b h2, dot_rotZF c h3]

end RotLemmas

section ParaxialClaims

variable {α : Type} [Field α] [DecidableEq α]

/-- Helper surface: a flat (zero curvature), zero-distance surface whose
material is an ordinary dielectric of index `nd` and Abbe number `vd`,
mirroring `Spheroid(curvature=0., distance=0., material=mat)` of the tests. -/
def flatDielectric (nd vd : α) : Spheroid α :=
  { curvature := 0, distance := 0, material := some (Material.dielectric nd vd) }

/-- Helper surface: a flat, zero-distance mirror surface, mirroring
`Spheroid(curvature=0, distance=0, material=mirror)` of the tests. -/
def flatMirror : Spheroid α :=
  { curvature := 0, distance := 0, material := some Material.mirror }

/-- C5: for every surface (any distance, unit direction and tilt angles) and
every 3-vector `x`, the frame transforms are exact inverses:
`from_axis (to_axis x) = x`, and `from_normal (to_normal x) = x` for the
rotation-only normal-frame transforms. -/
theorem transform_roundtrip_inverse (s : Spheroid α) (x : V3 α)
    (hd : s.direction.unit) (ha : anglesOK s.angles) :
    s.from_axis (s.to_axis x) = x ∧ s.from_normal (s.to_normal x) = x := by
  constructor
  · simp only [Spheroid.from_axis, Spheroid.to_axis]
    rw [rotF_rotI s hd ha]
    refine V3.ext ?_ ?_ ?_ <;> simp [V3.add, V3.sub]
  · simp only [Spheroid.from_normal, Spheroid.to_normal]
    exact rotF_rotI s hd ha x

/-- Concrete surface exercising `transform_roundtrip_inverse`: nonzero
distance, a non-default unit direction and three nontrivial unit tilt
angles. -/
def roundtripSample : Spheroid ℚ :=
  { distance := 2, direction := ⟨3/5, 0, 4/5⟩,
    angles := some (⟨3/5, 4/5⟩, ⟨0, 1⟩, ⟨5/13, 12/13⟩) }

/-- Witness for C5 at a concrete tilted, decentered surface and the point
`(1, 2, 3)`. -/
theorem transform_roundtrip_inverse_witness :
    Spheroid.from_axis roundtripSample
        (Spheroid.to_axis roundtripSample ⟨1, 2, 3⟩) = ⟨1, 2, 3⟩ ∧
    Spheroid.from_normal roundtripSample
        (Spheroid.to_normal roundtripSample ⟨1, 2, 3⟩) = ⟨1, 2, 3⟩ :=
  transform_roundtrip_inverse roundtripSample ⟨1, 2, 3⟩
    (by norm_num [roundtripSample, V3.unit])
    (by norm_num [roundtripSample, anglesOK, SinCos.onCircle])

/-- C7: for every surface, the derived attribute `offset` equals
`distance * direction`, and the equality is preserved under mutation of either
`distance` or `direction`, since `offset` is derived and never stored. -/
theorem offset_derived_from_distance_direction (s : Spheroid α) (d : α)
    (v : V3 α) :
    s.offset = V3.smul s.distance s.direction ∧
    (s.setDistance d).offset = V3.smul d s.direction ∧
    (s.setDirection v).offset = V3.smul s.distance v :=
  ⟨rfl, rfl, rfl⟩

/-- C3: paraxial propagation through a flat (zero curvature), zero-distance
dielectric surface entered from index 1 leaves the transverse position
unchanged and scales the angle by `1 / nd`; in particular `y = y0` and
`u * nd = u0`, and the exit index is `nd`. -/
theorem paraxial_flat_zero_distance_refraction (y0 u0 : α × α) (nd vd : α)
    (hnd : nd ≠ 0) :
    (Spheroid.propagate_paraxial (flatDielectric nd vd) (y0, u0) 1 1).1.1
        = y0 ∧
    ((Spheroid.propagate_paraxial (flatDielectric nd vd) (y0, u0) 1 1).1.2.1
          * nd,
      (Spheroid.propagate_paraxial (flatDielectric nd vd) (y0, u0) 1 1).1.2.2
          * nd) = u0 ∧
    (Spheroid.propagate_paraxial (flatDielectric nd vd) (y0, u0) 1 1).2
        = nd := by
  have key : Spheroid.propagate_paraxial (flatDielectric nd vd) (y0, u0) 1 1
      = ((y0, (u0.1 / nd, u0.2 / nd)), nd) := by
    simp [Spheroid.propagate_paraxial, Spheroid.n1of, Spheroid.isMirror,
      flatDielectric]
  rw [key]
  refine ⟨rfl, ?_, rfl⟩
  refine Prod.ext ?_ ?_ <;> · dsimp only; exact div_mul_cancel₀ _ hnd

/-- Witness for C3 at the test inputs `(y0, u0) = ((1, 2), (.2, .1))` and
`nd = 1.5`. -/
theorem paraxial_flat_zero_distance_refraction_witness :
    (Spheroid.propagate_paraxial (flatDielectric (3/2) 0 : Spheroid ℚ)
        ((1, 2), (1/5, 1/10)) 1 1).1.1 = (1, 2) ∧
    ((Spheroid.propagate_paraxial (flatDielectric (3/2) 0 : Spheroid ℚ)
          ((1, 2), (1/5, 1/10)) 1 1).1.2.1 * (3/2),
      (Spheroid.propagate_paraxial (flatDielectric (3/2) 0 : Spheroid ℚ)
          ((1, 2), (1/5, 1/10)) 1 1).1.2.2 * (3/2)) = (1/5, 1/10) ∧
    (Spheroid.propagate_paraxial (flatDielectric (3/2) 0 : Spheroid ℚ)
        ((1, 2), (1/5, 1/10)) 1 1).2 = 3/2 :=
  paraxial_flat_zero_distance_refraction (1, 2) (1/5, 1/10) (3/2) 0
    (by norm_num)

/-- C4: paraxial propagation through a flat, zero-distance mirror surface
negates both the transverse position and the angle, and the exit index is
`-n0`. -/
theorem paraxial_flat_mirror_negates (y0 u0 : α × α) (n0 : α) (hn0 : n0 ≠ 0) :
    (Spheroid.propagate_paraxial (flatMirror : Spheroid α) (y0, u0) n0 1).1.1
        = (-y0.1, -y0.2) ∧
    (Spheroid.propagate_paraxial (flatMirror : Spheroid α) (y0, u0) n0 1).1.2
        = (-u0.1, -u0.2) ∧
    (Spheroid.propagate_paraxial (flatMirror : Spheroid α) (y0, u0) n0 1).2
        = -n0 := by
  have key : Spheroid.propagate_paraxial (flatMirror : Spheroid α) (y0, u0)
        n0 1
      = (((-y0.1, -y0.2), (-u0.1, -u0.2)), -n0) := by
    simp [Spheroid.propagate_paraxial, Spheroid.n1of, Spheroid.isMirror,
      flatMirror]
    field_simp [hn0]
    exact ⟨mul_comm _ _, mul_comm _ _⟩
  rw [key]
  exact ⟨rfl, rfl, rfl⟩

/-- Witness for C4 at the test inputs `(y0, u0) = ((1, 2), (.2, .1))` entered
from index 1. -/
theorem paraxial_flat_mirror_negates_witness :
    (Spheroid.propagate_paraxial (flatMirror : Spheroid ℚ)
        ((1, 2), (1/5, 1/10)) 1 1).1.1 = (-1, -2) ∧
    (Spheroid.propagate_paraxial (flatMirror : Spheroid ℚ)
        ((1, 2), (1/5, 1/10)) 1 1).1.2 = (-(1/5), -(1/10)) ∧
    (Spheroid.propagate_paraxial (flatMirror : Spheroid ℚ)
        ((1, 2), (1/5, 1/10)) 1 1).2 = -1 :=
  paraxial_flat_mirror_negates (1, 2) (1/5, 1/10) 1 (by norm_num)

end ParaxialClaims

section Library

/-- Row of the `catalog` table of `library.py`, restricted to the columns the
modelled operations read: primary key, name, parser format, source file path,
the import date and file size.  The modification date (a float there) is
modelled as an integer timestamp; only its ordering and equality matter. -/
structure CatalogRow where
  id : Nat
  name : String
  format : String
  file : String
  date : Int
  size : Nat
  deriving DecidableEq, Repr

/-- Row of the `glass` or `lens` table, restricted to the columns the modelled
operations read: primary key, name, owning catalog and payload data. -/
structure ItemRow where
  id : Nat
  name : String
  catalog : Nat
  data : String
  deriving DecidableEq, Repr

/-- The two item tables a `Library.get` lookup may target. -/
inductive Typ where
  | glass
  | lens
  deriving DecidableEq, Repr

/-- State of a `Library`: the three tables plus the in-memory parse cache
keyed by `(type, id)`.  Parsed objects are modelled as strings. -/
structure LibState where
  catalogT : List CatalogRow
  glassT : List ItemRow
  lensT : List ItemRow
  cache : List ((Typ × Nat) × String)
  deriving DecidableEq, Repr

/-- Table selection by type name, as the SQL string interpolation `{0}` does in
`Library.get` and `Library.parse`. -/
def LibState.table (st : LibState) : Typ → List ItemRow
  | Typ.glass => st.glassT
  | Typ.lens => st.lensT

/-- Replace the item tables of a state, leaving catalog and cache unchanged;
used to express that a cached parse ignores later changes to stored rows. -/
def LibState.setTables (st : LibState) (g l : List ItemRow) : LibState :=
  { st with glassT := g, lensT := l }

/-- Failures of the modelled library operations: the `KeyError` that
`Library.get` raises when no record matches, and the crash `Library.parse`
would hit on a dangling id. -/
inductive LibErr where
  | notFound
  | internalFault
  deriving DecidableEq, Repr

/-- Lookup in the in-memory cache dictionary `self.cache` keyed by
`(typ, id)`. -/
def cacheGet (cache : List ((Typ × Nat) × String)) (k : Typ × Nat) :
    Option String :=
  (cache.find? (fun e => e.1 == k)).map (fun e => e.2)

/-- Translation of `Library.parse`: unless `reload` is set, a cached object is
returned as is; otherwise the row and its catalog are fetched, the
format-specific parser (abstracted as the `parsers` argument) is applied to the
stored data, and the result is cached and returned.  A missing row or catalog
is a crash in the source, modelled as `none`. -/
def Library.parse (parsers : String → String → String) (st : LibState)
    (typ : Typ) (id : Nat) (reload : Bool) : Option (String × LibState) :=
  match (if reload then none else cacheGet st.cache (typ, id)) with
  | some obj => some (obj, st)
  | none =>
    match (st.table typ).find? (fun r => r.id == id) with
    | none => none
    | some r =>
      match st.catalogT.find? (fun c => c.id == r.catalog) with
      | none => none
      | some c =>
        let obj := parsers c.format r.data
        some (obj, { st with cache := ((typ, id), obj) :: st.cache })

/-- Case-insensitive string comparison, modelling the SQL `collate nocase`
name columns. -/
def lowerEq (a b : String) : Bool :=
  a.data.map Char.toLower == b.data.map Char.toLower

/-- Translation of the row lookup inside `Library.get`: the first row of the
requested table whose name matches (SQL `collate nocase`, hence the
case-insensitive comparison), joined against the catalog name when one is
given. -/
def recFind (st : LibState) (typ : Typ) (name : String)
    (catalog : Option String) : Option ItemRow :=
  match catalog with
  | none =>
      (st.table typ).find? (fun r => lowerEq r.name name)
  | some cname =>
      (st.table typ).find? (fun r =>
        lowerEq r.name name &&
        ((st.catalogT.find? (fun c => c.id == r.catalog)).map
            (fun c => lowerEq c.name cname) == some true))

/-- Translation of `Library.get`: look the name up, raise `KeyError`
(`notFound`) when nothing matches, and hand the found id to `Library.parse`
otherwise. -/
def Library.get (parsers : String → String → String) (st : LibState)
    (typ : Typ) (name : String) (catalog : Option String) :
    Except LibErr (String × LibState) :=
  match recFind st typ name catalog with
  | none => Except.error LibErr.notFound
  | some r =>
    match Library.parse parsers st typ r.id false with
    | none => Except.error LibErr.internalFault
    | some pr => Except.ok pr

/-- The file extensions registered in `Library.loaders`, lowercased. -/
def loaderExts : List (List Char) :=
  [".zmf".data, ".agf".data, ".dir".data, ".glc".data]

/-- Model of the lowercased `os.path.splitext` extension of the basename of a
path: the suffix from the final dot on, lowercased; empty when the basename
has no dot or only leading dots before the final one. -/
def extLower (fil : String) : List Char :=
  let base := (fil.data.reverse.takeWhile (fun ch => ch != '/')).reverse
  let rev := base.reverse
  let afterDot := rev.takeWhile (fun ch => ch != '.')
  if afterDot.length = rev.length then []
  else if (rev.drop (afterDot.length + 1)).all (fun ch => ch == '.') then []
  else ('.' :: afterDot.reverse).map Char.toLower

/-- Result of `os.stat` on the file being loaded: modification time and size. -/
structure FileStat where
  mtime : Int
  size : Nat
  deriving DecidableEq, Repr

/-- Translation of `Library.delete_catalog`: remove the lens and glass rows of
the catalog and the catalog row itself.  The cache is not touched. -/
def Library.delete_catalog (st : LibState) (id : Nat) : LibState :=
  { st with lensT := st.lensT.filter (fun r => r.catalog ≠ id),
            glassT := st.glassT.filter (fun r => r.catalog ≠ id),
            catalogT := st.catalogT.filter (fun c => c.id ≠ id) }

/-- Translation of `Library.load`: skip files whose lowercased extension has
no registered loader; otherwise look the file up in the catalog table.  On a
hit in mode `refresh` the load returns unchanged when
`mtime <= date or size == size` (the source condition), else deletes the old
catalog and imports; mode `reload` always deletes and imports; any other mode
(including `add`) imports without deleting.  The format-specific loader is
abstracted as the `importer` argument. -/
def Library.load (importer : String → LibState → LibState) (st : LibState)
    (fil : String) (stat : FileStat) (mode : String) : LibState :=
  if extLower fil ∈ loaderExts then
    match st.catalogT.find? (fun c => c.file == fil) with
    | none => importer fil st
    | some c =>
      if mode = "refresh" then
        if stat.mtime ≤ c.date ∨ stat.size = c.size then st
        else importer fil (Library.delete_catalog st c.id)
      else if mode = "reload" then
        importer fil (Library.delete_catalog st c.id)
      else importer fil st
  else st

end Library

section LibraryClaims

theorem cacheGet_cons_self (cache : List ((Typ × Nat) × String))
    (k : Typ × Nat) (obj : String) :
    cacheGet ((k, obj) :: cache) k = some obj := by
  simp [cacheGet]

theorem parse_ok_cache (parsers : String → String → String) (st : LibState)
    (typ : Typ) (id : Nat) (reload : Bool) (obj : String) (st1 : LibState)
    (h : Library.parse parsers st typ id reload = some (obj, st1)) :
    cacheGet st1.cache (typ, id) = some obj := by
  unfold Library.parse at h
  rcases hr : (if reload then none else cacheGet st.cache (typ, id)) with _ | o
  · rw [hr] at h
    dsimp only at h
    rcases h1 : (st.table typ).find? (fun r => r.id == id) with _ | r
    · rw [h1] at h
      cases h
    · rw [h1] at h
      dsimp only at h
      rcases h2 : st.catalogT.find? (fun c => c.id == r.catalog) with _ | c
      · rw [h2] at h
        cases h
      · rw [h2] at h
        dsimp only at h
        simp only [Option.some.injEq, Prod.mk.injEq] at h
        obtain ⟨ho, hs⟩ := h
        subst hs
        simp [cacheGet, ho]
  · rw [hr] at h
    dsimp only at h
    simp only [Option.some.injEq, Prod.mk.injEq] at h
    obtain ⟨ho, hs⟩ := h
    subst hs
    cases reload
    · simp only [Bool.false_eq_true, if_false] at hr
      rw [hr, ho]
    · simp at hr

theorem parse_cache_hit (parsers : String → String → String) (st : LibState)
    (typ : Typ) (id : Nat) (obj : String)
    (h : cacheGet st.cache (typ, id) = some obj) :
    Library.parse parsers st typ id false = some (obj, st) := by
  unfold Library.parse
  simp [h]

/-- C8: for every type, name and optional catalog name, `Library.get` raises
the not-found error exactly on a missing record: when no matching record is in
the store the result is the `KeyError`, and a successful result implies a
matching record exists (no silent substitution of a default). -/
theorem get_notFound_on_missing :
    (∀ (parsers : String → String → String) (st : LibState) (typ : Typ)
        (name : String) (catalog : Option String),
      recFind st typ name catalog = none →
      Library.get parsers st typ name catalog = Except.error LibErr.notFound) ∧
    (∀ (parsers : String → String → String) (st : LibState) (typ : Typ)
        (name : String) (catalog : Option String) (pr : String × LibState),
      Library.get parsers st typ name catalog = Except.ok pr →
      recFind st typ name catalog ≠ none) := by
  constructor
  · intro parsers st typ name catalog h
    unfold Library.get
    rw [h]
  · intro parsers st typ name catalog pr h hnone
    unfold Library.get at h
    rw [hnone] at h
    cases h

/-- The empty library store. -/
def emptyLib : LibState := ⟨[], [], [], []⟩

/-- Concrete stand-in for the format-specific parser table. -/
def parsersSample : String → String → String := fun f d => f ++ ":" ++ d

/-- Witness for C8: looking up a glass by name and catalog in the empty store
returns the not-found error. -/
theorem get_notFound_on_missing_witness :
    Library.get parsersSample emptyLib Typ.glass "BK7" (some "schott")
      = Except.error LibErr.notFound :=
  get_notFound_on_missing.1 parsersSample emptyLib Typ.glass "BK7"
    (some "schott") rfl

/-- C10: once a parse for
`(typ, id)` has succeeded, every later `parse` call with `reload` false
returns the identical cached object and leaves the state unchanged, even if
the stored item rows have changed in the meantime. -/
theorem parse_cached_idempotent (parsers : String → String → String)
    (st : LibState) (typ : Typ) (id : Nat) (reload : Bool) (obj : String)
    (st1 : LibState)
    (h : Library.parse parsers st typ id reload = some (obj, st1)) :
    Library.parse parsers st1 typ id false = some (obj, st1) ∧
    ∀ g l, Library.parse parsers (st1.setTables g l) typ id false
        = some (obj, st1.setTables g l) := by
  have hc := parse_ok_cache parsers st typ id reload obj st1 h
  exact ⟨parse_cache_hit parsers st1 typ id obj hc,
    fun g l => parse_cache_hit parsers (st1.setTables g l) typ id obj hc⟩

/-- A one-catalog, one-glass store ready for a first parse. -/
def libSample : LibState :=
  { catalogT := [⟨1, "cat", "agf", "f.agf", 0, 10⟩],
    glassT := [⟨7, "BK7", 1, "DATA"⟩], lensT := [], cache := [] }

/-- The store of `libSample` after the first parse of glass 7 has been
cached. -/
def libSampleParsed : LibState :=
  { libSample with cache := [((Typ.glass, 7), "agf:DATA")] }

/-- Witness for C10: after a first parse of glass 7 in `libSample`, a repeat
parse returns the cached object unchanged, and still does so after the stored
glass row is replaced. -/
theorem parse_cached_idempotent_witness :
    Library.parse parsersSample libSampleParsed Typ.glass 7 false
        = some ("agf:DATA", libSampleParsed) ∧
    Library.parse parsersSample
        (libSampleParsed.setTables [⟨7, "BK7", 1, "CHANGED"⟩] []) Typ.glass 7
        false
      = some ("agf:DATA",
          libSampleParsed.setTables [⟨7, "BK7", 1, "CHANGED"⟩] []) := by
  have h := parse_cached_idempotent parsersSample libSample Typ.glass 7 false
    "agf:DATA" libSampleParsed rfl
  exact ⟨h.1, h.2 [⟨7, "BK7", 1, "CHANGED"⟩] []⟩

/-- The catalog row used by the C9 counterexample: imported at time 0 with
size 10 from file `f.agf`. -/
def cat9 : CatalogRow := ⟨1, "cat", "agf", "f.agf", 0, 10⟩

/-- Store holding just the catalog row `cat9`. -/
def st9 : LibState := { catalogT := [cat9], glassT := [], lensT := [],
                        cache := [] }

/-- A state visibly different from `st9`, produced by the marker importer. -/
def marker9 : LibState :=
  { catalogT := [], glassT := [], lensT := [],
    cache := [((Typ.glass, 999), "MARK")] }

/-- Importer stand-in that always returns the marker state, making any
re-import observable. -/
def importer9 : String → LibState → LibState := fun _ _ => marker9

/-- C9 counterexample: the file `f.agf` has a newer modification time (5 > 0)
than the stored record, so by the claim a refresh load must re-import the
catalog; the code instead returns the store unchanged because the size is
unchanged, and in particular does not return the re-imported state. -/
theorem load_refresh_claim_counterexample :
    Library.load importer9 st9 "f.agf" ⟨5, 10⟩ "refresh" = st9 ∧
    st9.catalogT.find? (fun c => c.file == "f.agf") = some cat9 ∧
    (5 : Int) > cat9.date ∧
    Library.load importer9 st9 "f.agf" ⟨5, 10⟩ "refresh"
      ≠ importer9 "f.agf" (Library.delete_catalog st9 cat9.id) := by
  refine ⟨rfl, rfl, by decide, ?_⟩
  intro h
  exact absurd h (by decide)

/-- C9 (amended): under mode `refresh`, a load of a file whose catalog record
exists re-imports (deleting the old catalog first) exactly when the
modification time is strictly newer AND the size differs; otherwise the store
is unchanged.  Files whose extension has no registered loader are always
skipped, in every mode. -/
theorem load_refresh_reimport_iff :
    (∀ (importer : String → LibState → LibState) (st : LibState)
        (fil : String) (stat : FileStat) (c : CatalogRow),
      st.catalogT.find? (fun k => k.file == fil) = some c →
      extLower fil ∈ loaderExts →
      Library.load importer st fil stat "refresh"
        = if stat.mtime > c.date ∧ stat.size ≠ c.size
          then importer fil (Library.delete_catalog st c.id)
          else st) ∧
    (∀ (importer : String → LibState → LibState) (st : LibState)
        (fil : String) (stat : FileStat) (mode : String),
      extLower fil ∉ loaderExts →
      Library.load importer st fil stat mode = st) := by
  constructor
  · intro importer st fil stat c hfind hext
    unfold Library.load
    rw [if_pos hext, hfind]
    dsimp only
    rw [if_pos rfl]
    by_cases hcond : stat.mtime ≤ c.date ∨ stat.size = c.size
    · rw [if_pos hcond, if_neg]
      intro hcl
      rcases hcond with hc1 | hc2
      · exact absurd hcl.1 (not_lt.mpr hc1)
      · exact hcl.2 hc2
    · rw [if_neg hcond, if_pos]
      push_neg at hcond
      exact ⟨hcond.1, hcond.2⟩
  · intro importer st fil stat mode hext
    unfold Library.load
    rw [if_neg hext]

/-- Witness for C9's amended theorem: with both a newer time and a different
size the refresh re-imports (the marker state appears), and a file with an
unregistered extension is skipped in mode `reload`. -/
theorem load_refresh_reimport_iff_witness :
    Library.load importer9 st9 "f.agf" ⟨5, 11⟩ "refresh" = marker9 ∧
    Library.load importer9 st9 "f.txt" ⟨5, 11⟩ "reload" = st9 := by
  constructor
  · rw [load_refresh_reimport_iff.1 importer9 st9 "f.agf" ⟨5, 11⟩ cat9 rfl
      (by decide)]
    rw [if_pos (by decide)]
    rfl
  · exact load_refresh_reimport_iff.2 importer9 st9 "f.txt" ⟨5, 11⟩ "reload"
      (by decide)

end LibraryClaims

section RealTrace

/-- Failures of real-ray tracing and aiming (spec, section 7): degenerate
geometry (ray parallel to the surface), no forward intersection, and total
internal reflection. -/
inductive TraceErr where
  | degenerate
  | noForward
  | totalInternalReflection
  deriving DecidableEq, Repr

/-- Rescale a vector to unit length (undefined direction for the zero
vector). -/
noncomputable def normalize (v : V3 ℝ) : V3 ℝ :=
  V3.smul (1 / Real.sqrt (V3.dot v v)) v

/-- Modelled from the spec (section 4.4, step 2, and design note in section
9): the closed-form intersection parameter of the ray `y + t * u` with the
spherical surface `curvature * |p|^2 - 2 * p.z = 0` through the origin.  The
quadratic `A t^2 + B t + C = 0` degenerates to a linear solve for a flat
surface, and the physically forward root (smallest positive path parameter) is
selected. -/
noncomputable def intersectT (c : ℝ) (y u : V3 ℝ) : Except TraceErr ℝ :=
  let A := c * V3.dot u u
  let B := 2 * (c * V3.dot y u - u.z)
  let C := c * V3.dot y y - 2 * y.z
  if A = 0 then
    if B = 0 then Except.error TraceErr.degenerate
    else
      let t := -C / B
      if 0 < t then Except.ok t else Except.error TraceErr.noForward
  else
    let disc := B ^ 2 - 4 * A * C
    if disc < 0 then Except.error TraceErr.noForward
    else
      let r1 := (-B - Real.sqrt disc) / (2 * A)
      let r2 := (-B + Real.sqrt disc) / (2 * A)
      if 0 < min r1 r2 then Except.ok (min r1 r2)
      else if 0 < max r1 r2 then Except.ok (max r1 r2)
      else Except.error TraceErr.noForward

/-- Modelled from the spec (section 4.4, step 4): mirror reflection of a
direction about the surface normal. -/
noncomputable def reflect (u N : V3 ℝ) : V3 ℝ :=
  V3.sub u (V3.smul (2 * V3.dot u N) N)

/-- Modelled from the spec (section 4.4, step 4): vector Snell refraction of a
unit direction `u` at a unit normal `N` with index ratio `mu = n0 / n1`.  When
no real refraction root exists the call fails with the total-internal-
reflection error; otherwise the transmitted direction on the same side of the
normal as `u` is returned. -/
noncomputable def snell (mu : ℝ) (u N : V3 ℝ) : Except TraceErr (V3 ℝ) :=
  let ci := V3.dot u N
  let ct2 := 1 - mu ^ 2 * (1 - ci ^ 2)
  if ct2 < 0 then Except.error TraceErr.totalInternalReflection
  else
    let sg : ℝ := if 0 ≤ ci then 1 else -1
    Except.ok (V3.add (V3.smul mu u)
      (V3.smul (sg * Real.sqrt ct2 - mu * ci) N))

/-- Modelled from the spec (section 4.4): real-ray propagation through one
surface.  The incoming position and direction are rotated into the surface's
normal frame, the forward intersection with the spherical surface is solved in
closed form, the analytic unit normal at the intersection point is taken, the
direction is refracted (or reflected, or passed through when the surface has
no material), the path length is accumulated with weight `n0`, and the results
are rotated back out of the surface frame. -/
noncomputable def Spheroid.propagate (s : Spheroid ℝ) (y u : V3 ℝ)
    (n0 _l : ℝ) : Except TraceErr (V3 ℝ × V3 ℝ × ℝ × ℝ) :=
  let y1 := s.to_normal y
  let u1 := s.to_normal u
  match intersectT s.curvature y1 u1 with
  | Except.error e => Except.error e
  | Except.ok t =>
    let p := V3.add y1 (V3.smul t u1)
    let N := V3.sub (V3.smul s.curvature p) ⟨0, 0, 1⟩
    let ru : Except TraceErr (V3 ℝ) :=
      match s.material with
      | none => Except.ok u1
      | some Material.mirror => Except.ok (reflect u1 N)
      | some (Material.dielectric nd _) => snell (n0 / nd) u1 N
    match ru with
    | Except.error e => Except.error e
    | Except.ok u2 =>
        Except.ok (s.from_normal p, s.from_normal u2, s.n1of n0, n0 * t)

/-- Convergence tolerance of the pupil-aiming iteration. -/
noncomputable def aimTol : ℝ := 1 / 1000000

/-- Modelled from the spec (section 4.6): the aiming correction loop.  Each
round propagates the trial ray along the straight gap to the stop plane at
`z`, measures the normalized residual between the achieved and the requested
pupil coordinate, returns the unit launch ray once the residual is below
tolerance, and otherwise shifts the aimed target by the residual
(a fixed-point/Newton-style correction). -/
noncomputable def aimLoop (z h : ℝ) (yp : ℝ × ℝ) :
    Nat → V3 ℝ → V3 ℝ → V3 ℝ × V3 ℝ
  | 0, p, target => (p, normalize (V3.sub target p))
  | Nat.succ n, p, target =>
      let w := V3.sub target p
      let ax := p.x + (z - p.z) / w.z * w.x
      let ay := p.y + (z - p.z) / w.z * w.y
      let rx := (ax - yp.1 * h) / h
      let ry := (ay - yp.2 * h) / h
      if rx ^ 2 + ry ^ 2 ≤ aimTol then (p, normalize w)
      else aimLoop z h yp n p (V3.sub target ⟨rx * h, ry * h, 0⟩)

/-- Modelled from the spec (section 4.6): pupil aiming.  The stop lies at
distance `z` with half-angle `a`, hence half-aperture `z * tan a`.  A finite
object surface launches from the scaled object point and iterates the aiming
loop toward the nominal pupil point; an angular (at-infinity) object surface
fixes the direction from the angular field coordinate and solves the position;
the returned direction is always normalized to unit length. -/
noncomputable def Spheroid.aim (s : Spheroid ℝ) (yo yp : ℝ × ℝ) (z a : ℝ) :
    V3 ℝ × V3 ℝ :=
  let h := z * Real.tan a
  match s.radius with
  | some R =>
      let p : V3 ℝ := ⟨-(yo.1 * R), -(yo.2 * R), 0⟩
      aimLoop z h yp 16 p ⟨yp.1 * h, yp.2 * h, z⟩
  | none =>
      match s.angular_radius with
      | some ar =>
          let u := normalize ⟨Real.tan (yo.1 * ar), Real.tan (yo.2 * ar), 1⟩
          (V3.sub ⟨yp.1 * h, yp.2 * h, z⟩ (V3.smul (z / u.z) u), u)
      | none => (⟨0, 0, 0⟩, normalize ⟨yp.1, yp.2, z⟩)

theorem dot_self_nonneg (v : V3 ℝ) : 0 ≤ V3.dot v v := by
  simp only [V3.dot]
  nlinarith [mul_self_nonneg v.x, mul_self_nonneg v.y, mul_self_nonneg v.z]

theorem quad_root_eval (A B C s r : ℝ) (hA : A ≠ 0)
    (h2 : 2 * A * r = -B + s) (hs : s ^ 2 = B ^ 2 - 4 * A * C) :
    A * r ^ 2 + B * r + C = 0 := by
  have e1 : 4 * A * (A * r ^ 2 + B * r + C)
      = (2 * A * r) ^ 2 + 2 * B * (2 * A * r) + 4 * A * C := by ring
  rw [h2] at e1
  have e2 : (-B + s) ^ 2 + 2 * B * (-B + s) + 4 * A * C = 0 := by
    linear_combination hs
  rw [e2] at e1
  rcases mul_eq_zero.mp e1 with h4 | h0
  · exact absurd h4 (mul_ne_zero (by norm_num) hA)
  · exact h0

theorem dot_self_ne_zero_of_z (w : V3 ℝ) (hz : w.z ≠ 0) : V3.dot w w ≠ 0 := by
  simp only [V3.dot]
  intro h0
  have h1 : w.z * w.z ≤ 0 := by
    nlinarith [mul_self_nonneg w.x, mul_self_nonneg w.y]
  exact hz (mul_self_eq_zero.mp (le_antisymm h1 (mul_self_nonneg w.z)))

theorem normalize_unit (v : V3 ℝ) (hv : V3.dot v v ≠ 0) :
    V3.dot (normalize v) (normalize v) = 1 := by
  have hnn : 0 ≤ V3.dot v v := dot_self_nonneg v
  have h1 : Real.sqrt (V3.dot v v) ^ 2 = V3.dot v v := Real.sq_sqrt hnn
  have h2 : Real.sqrt (V3.dot v v) ≠ 0 := by
    intro h0
    rw [h0] at h1
    simp at h1
    exact hv h1.symm
  have key : V3.dot (normalize v) (normalize v)
      = V3.dot v v / Real.sqrt (V3.dot v v) ^ 2 := by
    simp only [normalize, V3.smul, V3.dot]
    field_simp
    ring
  rw [key, h1, div_self hv]

theorem intersectT_root (c : ℝ) (y u : V3 ℝ) (t : ℝ)
    (h : intersectT c y u = Except.ok t) :
    c * V3.dot u u * t ^ 2 + 2 * (c * V3.dot y u - u.z) * t
      + (c * V3.dot y y - 2 * y.z) = 0 := by
  unfold intersectT at h
  dsimp only at h
  set A := c * V3.dot u u with hA
  set B := 2 * (c * V3.dot y u - u.z) with hB
  set C := c * V3.dot y y - 2 * y.z with hC
  by_cases hA0 : A = 0
  · rw [if_pos hA0] at h
    by_cases hB0 : B = 0
    · rw [if_pos hB0] at h
      cases h
    · rw [if_neg hB0] at h
      by_cases hT : 0 < -C / B
      · rw [if_pos hT] at h
        cases h
        rw [hA0]
        field_simp
        ring
      · rw [if_neg hT] at h
        cases h
  · rw [if_neg hA0] at h
    by_cases hD : B ^ 2 - 4 * A * C < 0
    · rw [if_pos hD] at h
      cases h
    · rw [if_neg hD] at h
      set s := Real.sqrt (B ^ 2 - 4 * A * C) with hsdef
      have hs : s ^ 2 = B ^ 2 - 4 * A * C := Real.sq_sqrt (not_lt.mp hD)
      have h2A : (2 : ℝ) * A ≠ 0 := mul_ne_zero two_ne_zero hA0
      have hroot1 : A * ((-B - s) / (2 * A)) ^ 2 + B * ((-B - s) / (2 * A))
          + C = 0 := by
        refine quad_root_eval A B C (-s) _ hA0 ?_ (by linear_combination hs)
        field_simp
        ring
      have hroot2 : A * ((-B + s) / (2 * A)) ^ 2 + B * ((-B + s) / (2 * A))
          + C = 0 := by
        refine quad_root_eval A B C s _ hA0 ?_ hs
        field_simp
      by_cases hmin : 0 < min ((-B - s) / (2 * A)) ((-B + s) / (2 * A))
      · rw [if_pos hmin] at h
        cases h
        rcases min_choice ((-B - s) / (2 * A)) ((-B + s) / (2 * A)) with
          hm | hm <;> rw [hm]
        · exact hroot1
        · exact hroot2
      · rw [if_neg hmin] at h
        by_cases hmax : 0 < max ((-B - s) / (2 * A)) ((-B + s) / (2 * A))
        · rw [if_pos hmax] at h
          cases h
          rcases max_choice ((-B - s) / (2 * A)) ((-B + s) / (2 * A)) with
            hm | hm <;> rw [hm]
          · exact hroot1
          · exact hroot2
        · rw [if_neg hmax] at h
          cases h

theorem intersectT_on_surface (c : ℝ) (y u : V3 ℝ) (t : ℝ)
    (h : intersectT c y u = Except.ok t) :
    c * V3.dot (V3.add y (V3.smul t u)) (V3.add y (V3.smul t u))
      - 2 * (V3.add y (V3.smul t u)).z = 0 := by
  have hr := intersectT_root c y u t h
  simp only [V3.add, V3.smul, V3.dot] at hr ⊢
  linear_combination hr

theorem normal_unit (c : ℝ) (p : V3 ℝ)
    (hp : c * V3.dot p p - 2 * p.z = 0) :
    V3.dot (V3.sub (V3.smul c p) ⟨0, 0, 1⟩)
      (V3.sub (V3.smul c p) ⟨0, 0, 1⟩) = 1 := by
  simp only [V3.sub, V3.smul, V3.dot] at hp ⊢
  linear_combination c * hp

theorem reflect_unit (u N : V3 ℝ) (hu : V3.dot u u = 1)
    (hN : V3.dot N N = 1) :
    V3.dot (reflect u N) (reflect u N) = 1 := by
  simp only [reflect, V3.sub, V3.smul, V3.dot] at hu hN ⊢
  linear_combination hu + 4 * (u.x * N.x + u.y * N.y + u.z * N.z) ^ 2 * hN

theorem snell_unit (mu : ℝ) (u N u2 : V3 ℝ) (hu : V3.dot u u = 1)
    (hN : V3.dot N N = 1) (h : snell mu u N = Except.ok u2) :
    V3.dot u2 u2 = 1 := by
  unfold snell at h
  dsimp only at h
  by_cases hc : 1 - mu ^ 2 * (1 - V3.dot u N ^ 2) < 0
  · rw [if_pos hc] at h
    cases h
  · rw [if_neg hc] at h
    set s := Real.sqrt (1 - mu ^ 2 * (1 - V3.dot u N ^ 2)) with hsdef
    have hs : s ^ 2 = 1 - mu ^ 2 * (1 - V3.dot u N ^ 2) :=
      Real.sq_sqrt (not_lt.mp hc)
    by_cases hsg : 0 ≤ V3.dot u N
    · rw [if_pos hsg] at h
      cases h
      simp only [V3.add, V3.smul, V3.dot] at hu hN hs ⊢
      linear_combination mu ^ 2 * hu
        + (1 * s - mu * (u.x * N.x + u.y * N.y + u.z * N.z)) ^ 2 * hN + hs
    · rw [if_neg hsg] at h
      cases h
      simp only [V3.add, V3.smul, V3.dot] at hu hN hs ⊢
      linear_combination mu ^ 2 * hu
        + (-1 * s - mu * (u.x * N.x + u.y * N.y + u.z * N.z)) ^ 2 * hN + hs

theorem aimLoop_unit (z h : ℝ) (yp : ℝ × ℝ) (hz : z ≠ 0) :
    ∀ (n : Nat) (p target : V3 ℝ), p.z = 0 → target.z = z →
      V3.dot (aimLoop z h yp n p target).2 (aimLoop z h yp n p target).2
        = 1 := by
  intro n
  induction n with
  | zero =>
      intro p target hp ht
      simp only [aimLoop]
      apply normalize_unit
      apply dot_self_ne_zero_of_z
      simp [V3.sub, hp, ht, hz]
  | succ n ih =>
      intro p target hp ht
      simp only [aimLoop]
      split
      · apply normalize_unit
        apply dot_self_ne_zero_of_z
        simp [V3.sub, hp, ht, hz]
      · apply ih
        · exact hp
        · simp [V3.sub, ht]

/-- C2: for every real-ray propagation step, if the input direction is a unit
vector then the output direction of a successful propagation has unit norm,
for any finite curvature, any material and any pose with a unit direction; and
every pupil-aiming call with a stop at nonzero distance returns a unit launch
direction. -/
theorem real_and_aim_unit_direction :
    (∀ (s : Spheroid ℝ) (y u : V3 ℝ) (n0 l : ℝ) (y2 u2 : V3 ℝ) (n2 t2 : ℝ),
      s.direction.unit → anglesOK s.angles → V3.dot u u = 1 →
      Spheroid.propagate s y u n0 l = Except.ok (y2, u2, n2, t2) →
      V3.dot u2 u2 = 1) ∧
    (∀ (s : Spheroid ℝ) (yo yp : ℝ × ℝ) (z a : ℝ), z ≠ 0 →
      V3.dot (Spheroid.aim s yo yp z a).2 (Spheroid.aim s yo yp z a).2
        = 1) := by
  constructor
  · intro s y u n0 l y2 u2 n2 t2 hd ha hu h
    unfold Spheroid.propagate at h
    dsimp only at h
    rcases hit : intersectT s.curvature (s.to_normal y) (s.to_normal u)
      with e | t
    · rw [hit] at h
      cases h
    · rw [hit] at h
      dsimp only at h
      have hu1 : V3.dot (s.to_normal u) (s.to_normal u) = 1 := by
        rw [Spheroid.to_normal, dot_rotI s hd ha]
        exact hu
      have hN : V3.dot
          (V3.sub (V3.smul s.curvature
            (V3.add (s.to_normal y) (V3.smul t (s.to_normal u)))) ⟨0, 0, 1⟩)
          (V3.sub (V3.smul s.curvature
            (V3.add (s.to_normal y) (V3.smul t (s.to_normal u)))) ⟨0, 0, 1⟩)
          = 1 :=
        normal_unit _ _ (intersectT_on_surface _ _ _ _ hit)
      rcases hm : s.material with _ | mat
      · rw [hm] at h
        dsimp only at h
        simp only [Except.ok.injEq, Prod.mk.injEq] at h
        obtain ⟨hy2, hu2, hn2, ht2⟩ := h
        subst hu2
        rw [Spheroid.from_normal, dot_rotF s hd ha]
        exact hu1
      · cases mat with
        | dielectric nd vd =>
            rw [hm] at h
            dsimp only at h
            rcases hsn : snell (n0 / nd) (s.to_normal u)
                (V3.sub (V3.smul s.curvature
                  (V3.add (s.to_normal y) (V3.smul t (s.to_normal u))))
                  ⟨0, 0, 1⟩) with e | u2r
            · rw [hsn] at h
              cases h
            · rw [hsn] at h
              dsimp only at h
              simp only [Except.ok.injEq, Prod.mk.injEq] at h
              obtain ⟨hy2, hu2, hn2, ht2⟩ := h
              subst hu2
              rw [Spheroid.from_normal, dot_rotF s hd ha]
              exact snell_unit _ _ _ _ hu1 hN hsn
        | mirror =>
            rw [hm] at h
            dsimp only at h
            simp only [Except.ok.injEq, Prod.mk.injEq] at h
            obtain ⟨hy2, hu2, hn2, ht2⟩ := h
            subst hu2
            rw [Spheroid.from_normal, dot_rotF s hd ha]
            exact reflect_unit _ _ hu1 hN
  · intro s yo yp z a hz
    unfold Spheroid.aim
    dsimp only
    rcases hr : s.radius with _ | R
    · rcases har : s.angular_radius with _ | ar
      · dsimp only
        exact normalize_unit _ (dot_self_ne_zero_of_z _ hz)
      · dsimp only
        exact normalize_unit _ (dot_self_ne_zero_of_z _ one_ne_zero)
    · dsimp only
      exact aimLoop_unit z (z * Real.tan a) yp hz 16
        ⟨-(yo.1 * R), -(yo.2 * R), 0⟩
        ⟨yp.1 * (z * Real.tan a), yp.2 * (z * Real.tan a), z⟩ rfl rfl

theorem alignI_zaxis (v : V3 ℝ) : alignI ⟨0, 0, 1⟩ v = v := by
  unfold alignI
  rw [if_neg (by norm_num)]
  refine V3.ext ?_ ?_ ?_ <;> dsimp only <;> norm_num

theorem alignF_zaxis (v : V3 ℝ) : alignF ⟨0, 0, 1⟩ v = v := by
  unfold alignF
  rw [if_neg (by norm_num)]
  refine V3.ext ?_ ?_ ?_ <;> dsimp only <;> norm_num

theorem to_normal_id (s : Spheroid ℝ) (hd : s.direction = ⟨0, 0, 1⟩)
    (hang : s.angles = none) (v : V3 ℝ) : s.to_normal v = v := by
  unfold Spheroid.to_normal Spheroid.rotI
  rw [hang]
  dsimp only
  rw [hd]
  exact alignI_zaxis v

theorem from_normal_id (s : Spheroid ℝ) (hd : s.direction = ⟨0, 0, 1⟩)
    (hang : s.angles = none) (v : V3 ℝ) : s.from_normal v = v := by
  unfold Spheroid.from_normal Spheroid.rotF
  rw [hang]
  dsimp only
  rw [hd]
  exact alignF_zaxis v

theorem intersectT_flat (y u : V3 ℝ) (huz : u.z ≠ 0)
    (hT : 0 < -y.z / u.z) :
    intersectT 0 y u = Except.ok (-y.z / u.z) := by
  unfold intersectT
  dsimp only
  rw [if_pos (show (0 : ℝ) * V3.dot u u = 0 by ring)]
  rw [if_neg (show ¬(2 * ((0 : ℝ) * V3.dot y u - u.z) = 0) by
    intro h
    apply huz
    linarith [h])]
  have ht : -((0 : ℝ) * V3.dot y y - 2 * y.z)
      / (2 * ((0 : ℝ) * V3.dot y u - u.z)) = -y.z / u.z := by
    field_simp
    ring
  rw [ht, if_pos hT]

theorem propagate_flat_none (s : Spheroid ℝ) (hc : s.curvature = 0)
    (hd : s.direction = ⟨0, 0, 1⟩) (hang : s.angles = none)
    (hmat : s.material = none) (y u : V3 ℝ) (n0 l : ℝ) (huz : u.z ≠ 0)
    (hT : 0 < -y.z / u.z) :
    Spheroid.propagate s y u n0 l = Except.ok
      (V3.add y (V3.smul (-y.z / u.z) u), u, n0, n0 * (-y.z / u.z)) := by
  unfold Spheroid.propagate
  simp only [to_normal_id s hd hang]
  rw [hc, intersectT_flat y u huz hT]
  dsimp only
  rw [hmat]
  dsimp only
  simp only [from_normal_id s hd hang]
  rw [show Spheroid.n1of s n0 = n0 by unfold Spheroid.n1of; rw [hmat]]

/-- Concrete surface for the C2 witness: a flat dielectric interface of index
1.5 at the default pose. -/
noncomputable def unitSample : Spheroid ℝ :=
  { curvature := 0, material := some (Material.dielectric (3 / 2) 64) }

theorem unitSample_to_normal (v : V3 ℝ) : unitSample.to_normal v = v := by
  show alignI ⟨0, 0, 1⟩ v = v
  unfold alignI
  rw [if_neg (by norm_num)]
  refine V3.ext ?_ ?_ ?_ <;> dsimp only <;> norm_num

theorem unitSample_from_normal (v : V3 ℝ) : unitSample.from_normal v = v := by
  show alignF ⟨0, 0, 1⟩ v = v
  unfold alignF
  rw [if_neg (by norm_num)]
  refine V3.ext ?_ ?_ ?_ <;> dsimp only <;> norm_num

theorem unitSample_propagate :
    Spheroid.propagate unitSample ⟨0, 0, -1⟩ ⟨0, 0, 1⟩ 1 1
      = Except.ok (⟨0, 0, 0⟩, ⟨0, 0, 1⟩, 3 / 2, 1) := by
  have hint : intersectT (0 : ℝ) ⟨0, 0, -1⟩ ⟨0, 0, 1⟩ = Except.ok 1 := by
    unfold intersectT
    norm_num [V3.dot]
  have hsn : snell ((1 : ℝ) / (3 / 2)) ⟨0, 0, 1⟩ ⟨0, 0, -1⟩
      = Except.ok ⟨0, 0, 1⟩ := by
    unfold snell
    norm_num [V3.dot, V3.add, V3.smul, Real.sqrt_one]
  unfold Spheroid.propagate
  simp only [unitSample_to_normal]
  have hc : unitSample.curvature = (0 : ℝ) := rfl
  have hm : unitSample.material = some (Material.dielectric (3 / 2) 64) := rfl
  rw [hc, hm, hint]
  dsimp only
  have hp : V3.add (⟨0, 0, -1⟩ : V3 ℝ) (V3.smul 1 ⟨0, 0, 1⟩)
      = (⟨0, 0, 0⟩ : V3 ℝ) := by
    refine V3.ext ?_ ?_ ?_ <;> simp [V3.add, V3.smul]
  have hNv : V3.sub (V3.smul (0 : ℝ) ⟨0, 0, 0⟩) ⟨0, 0, 1⟩
      = (⟨0, 0, -1⟩ : V3 ℝ) := by
    refine V3.ext ?_ ?_ ?_ <;> simp [V3.sub, V3.smul]
  rw [hp, hNv, hsn]
  dsimp only
  rw [unitSample_from_normal, unitSample_from_normal]
  norm_num [Spheroid.n1of, hm]

/-- Witness for C2: a normally incident unit ray through the flat dielectric
keeps unit norm, and an aiming call at stop distance 2 returns a unit
direction. -/
theorem real_and_aim_unit_direction_witness :
    V3.dot (⟨0, 0, 1⟩ : V3 ℝ) ⟨0, 0, 1⟩ = 1 ∧
    V3.dot (Spheroid.aim unitSample (0, 0) (0, 1) 2 1).2
      (Spheroid.aim unitSample (0, 0) (0, 1) 2 1).2 = 1 := by
  constructor
  · exact real_and_aim_unit_direction.1 unitSample ⟨0, 0, -1⟩ ⟨0, 0, 1⟩ 1 1
      ⟨0, 0, 0⟩ ⟨0, 0, 1⟩ (3 / 2) 1 (by norm_num [unitSample, V3.unit])
      trivial (by norm_num [V3.dot]) unitSample_propagate
  · exact real_and_aim_unit_direction.2 unitSample (0, 0) (0, 1) 2 1
      (by norm_num)

/-- The finite object surface of the pupil test: clear radius 3. -/
noncomputable def sfC6 : Spheroid ℝ := { radius := some 3 }

/-- The stop surface of the pupil test: distance 2, half-aperture 1.5. -/
noncomputable def snC6 : Spheroid ℝ := { distance := 2, radius := some (3 / 2) }

/-- Stop half-angle of the pupil test, `arctan2(h, z) = arctan(1.5 / 2)`. -/
noncomputable def aC6 : ℝ := Real.arctan (3 / 4)

theorem aC6_tan : (2 : ℝ) * Real.tan aC6 = 3 / 2 := by
  unfold aC6
  rw [Real.tan_arctan]
  norm_num

theorem aimLoop_succ (z h : ℝ) (yp : ℝ × ℝ) (n : Nat) (p target : V3 ℝ) :
    aimLoop z h yp (n + 1) p target =
      (if ((p.x + (z - p.z) / (V3.sub target p).z * (V3.sub target p).x
              - yp.1 * h) / h) ^ 2
          + ((p.y + (z - p.z) / (V3.sub target p).z * (V3.sub target p).y
              - yp.2 * h) / h) ^ 2 ≤ aimTol
       then (p, normalize (V3.sub target p))
       else aimLoop z h yp n p
         (V3.sub target
           ⟨(p.x + (z - p.z) / (V3.sub target p).z * (V3.sub target p).x
              - yp.1 * h) / h * h,
            (p.y + (z - p.z) / (V3.sub target p).z * (V3.sub target p).y
              - yp.2 * h) / h * h, 0⟩)) := rfl

theorem aim_caseA :
    Spheroid.aim sfC6 (0, 4 / 5) (0, 0) 2 aC6
      = (⟨0, -(12 / 5), 0⟩, normalize ⟨0, 12 / 5, 2⟩) := by
  unfold Spheroid.aim
  rw [show sfC6.radius = some (3 : ℝ) from rfl]
  dsimp only
  simp only [aC6_tan]
  rw [show (16 : Nat) = 15 + 1 from rfl, aimLoop_succ]
  rw [if_pos (by norm_num [V3.sub, aimTol])]
  simp only [Prod.mk.injEq]
  constructor
  · refine V3.ext ?_ ?_ ?_ <;> norm_num
  · congr 1
    refine V3.ext ?_ ?_ ?_ <;> norm_num [V3.sub]

theorem aim_caseB :
    Spheroid.aim sfC6 (0, 0) (0, 1) 2 aC6
      = (⟨0, 0, 0⟩, normalize ⟨0, 3 / 2, 2⟩) := by
  unfold Spheroid.aim
  rw [show sfC6.radius = some (3 : ℝ) from rfl]
  dsimp only
  simp only [aC6_tan]
  rw [show (16 : Nat) = 15 + 1 from rfl, aimLoop_succ]
  rw [if_pos (by norm_num [V3.sub, aimTol])]
  simp only [Prod.mk.injEq]
  constructor
  · refine V3.ext ?_ ?_ ?_ <;> norm_num
  · congr 1
    refine V3.ext ?_ ?_ ?_ <;> norm_num [V3.sub]

/-- C6: pupil-aiming round trip on the surface with radius 3.  Aiming from
object point `(0, 0.8)` at pupil coordinate `(0, 0)` yields a unit ray which,
propagated through the gap to the stop at distance 2 with half-aperture 1.5,
lands at stop-normalized coordinate `(0, 0)`; aiming from `(0, 0)` at pupil
coordinate `(0, 1)` lands at `(0, 1)`; directions are unit length
throughout. -/
theorem pupil_aiming_roundtrip :
    (V3.dot (Spheroid.aim sfC6 (0, 4 / 5) (0, 0) 2 aC6).2
        (Spheroid.aim sfC6 (0, 4 / 5) (0, 0) 2 aC6).2 = 1 ∧
      ∃ y1 u1 t1, Spheroid.propagate snC6
          (V3.sub (Spheroid.aim sfC6 (0, 4 / 5) (0, 0) 2 aC6).1 ⟨0, 0, 2⟩)
          (Spheroid.aim sfC6 (0, 4 / 5) (0, 0) 2 aC6).2 1 1
        = Except.ok (y1, u1, 1, t1) ∧
        (y1.x / (3 / 2), y1.y / (3 / 2)) = ((0 : ℝ), (0 : ℝ)) ∧
        V3.dot u1 u1 = 1) ∧
    (V3.dot (Spheroid.aim sfC6 (0, 0) (0, 1) 2 aC6).2
        (Spheroid.aim sfC6 (0, 0) (0, 1) 2 aC6).2 = 1 ∧
      ∃ y1 u1 t1, Spheroid.propagate snC6
          (V3.sub (Spheroid.aim sfC6 (0, 0) (0, 1) 2 aC6).1 ⟨0, 0, 2⟩)
          (Spheroid.aim sfC6 (0, 0) (0, 1) 2 aC6).2 1 1
        = Except.ok (y1, u1, 1, t1) ∧
        (y1.x / (3 / 2), y1.y / (3 / 2)) = ((0 : ℝ), (1 : ℝ)) ∧
        V3.dot u1 u1 = 1) := by
  constructor
  · simp only [aim_caseA]
    have hq : V3.dot (⟨0, 12 / 5, 2⟩ : V3 ℝ) ⟨0, 12 / 5, 2⟩ = 244 / 25 := by
      norm_num [V3.dot]
    have hs0 : (0 : ℝ) < Real.sqrt (244 / 25) :=
      Real.sqrt_pos.mpr (by norm_num)
    have hsne : Real.sqrt (244 / 25) ≠ 0 := ne_of_gt hs0
    have hwne : V3.dot (⟨0, 12 / 5, 2⟩ : V3 ℝ) ⟨0, 12 / 5, 2⟩ ≠ 0 := by
      rw [hq]
      norm_num
    refine ⟨normalize_unit _ hwne, ?_⟩
    have hy : V3.sub (⟨0, -(12 / 5), 0⟩ : V3 ℝ) ⟨0, 0, 2⟩
        = ⟨0, -(12 / 5), -2⟩ := by
      refine V3.ext ?_ ?_ ?_ <;> norm_num [V3.sub]
    rw [hy]
    have hnw : normalize (⟨0, 12 / 5, 2⟩ : V3 ℝ)
        = ⟨0, 1 / Real.sqrt (244 / 25) * (12 / 5),
            1 / Real.sqrt (244 / 25) * 2⟩ := by
      unfold normalize
      rw [hq]
      refine V3.ext ?_ ?_ ?_ <;> norm_num [V3.smul]
    rw [hnw]
    have huzne : (⟨0, 1 / Real.sqrt (244 / 25) * (12 / 5),
        1 / Real.sqrt (244 / 25) * 2⟩ : V3 ℝ).z ≠ 0 := by
      dsimp only
      positivity
    have hT : (0 : ℝ) < -(⟨0, -(12 / 5), -2⟩ : V3 ℝ).z
        / (⟨0, 1 / Real.sqrt (244 / 25) * (12 / 5),
            1 / Real.sqrt (244 / 25) * 2⟩ : V3 ℝ).z := by
      dsimp only
      positivity
    refine ⟨_, _, _,
      propagate_flat_none snC6 rfl rfl rfl rfl _ _ 1 1 huzne hT, ?_, ?_⟩
    · simp only [Prod.mk.injEq]
      constructor
      · dsimp only [V3.add, V3.smul]
        norm_num
      · dsimp only [V3.add, V3.smul]
        field_simp
        ring
    · rw [← hnw]
      exact normalize_unit _ hwne
  · simp only [aim_caseB]
    have hq : V3.dot (⟨0, 3 / 2, 2⟩ : V3 ℝ) ⟨0, 3 / 2, 2⟩ = 25 / 4 := by
      norm_num [V3.dot]
    have hsqrt : Real.sqrt (25 / 4) = 5 / 2 := by
      rw [show (25 / 4 : ℝ) = (5 / 2) ^ 2 by norm_num]
      exact Real.sqrt_sq (by norm_num)
    have hwne : V3.dot (⟨0, 3 / 2, 2⟩ : V3 ℝ) ⟨0, 3 / 2, 2⟩ ≠ 0 := by
      rw [hq]
      norm_num
    have hnw : normalize (⟨0, 3 / 2, 2⟩ : V3 ℝ) = ⟨0, 3 / 5, 4 / 5⟩ := by
      unfold normalize
      rw [hq, hsqrt]
      refine V3.ext ?_ ?_ ?_ <;> norm_num [V3.smul]
    refine ⟨normalize_unit _ hwne, ?_⟩
    have hy : V3.sub (⟨0, 0, 0⟩ : V3 ℝ) ⟨0, 0, 2⟩ = ⟨0, 0, -2⟩ := by
      refine V3.ext ?_ ?_ ?_ <;> norm_num [V3.sub]
    rw [hy, hnw]
    have huzne : (⟨0, 3 / 5, 4 / 5⟩ : V3 ℝ).z ≠ 0 := by norm_num
    have hT : (0 : ℝ) < -(⟨0, 0, -2⟩ : V3 ℝ).z
        / (⟨0, 3 / 5, 4 / 5⟩ : V3 ℝ).z := by norm_num
    refine ⟨_, _, _,
      propagate_flat_none snC6 rfl rfl rfl rfl _ _ 1 1 huzne hT, ?_, ?_⟩
    · simp only [Prod.mk.injEq]
      constructor
      · dsimp only [V3.add, V3.smul]
        norm_num
      · dsimp only [V3.add, V3.smul]
        norm_num
    · rw [← hnw]
      exact normalize_unit _ hwne

end RealTrace

end RayOpt
